import Mathlib

/-!
Shallow embedding of the two-tier chained hash table from the repository
(primary variant: the `HashTable<K, V, BaseSize>` with `IntKey` keys,
`HashNode::isOccupied`, `insert` / `get` / `remove` / `grow` / `make_table`;
a second variant with `std::optional` slots and `erase` is embedded where a
claim cites it).

Modelling conventions, fixed once for the whole file:
* The table is instantiated as in the repository's driver:
  `HashTable<IntKey<int>, int, BaseSize>`.  Keys are `Int`;
  `IntKey::hash()` is `static_cast<size_t>(value)`, i.e. the value modulo
  2^64; `IntKey::isNull()` is `value == 0`; values are `Int`.
* Both key and value are trivially copyable in that instantiation, so every
  `std::move` of a key or value leaves the source object intact; the model
  therefore treats such moves as copies, which is exact for this program.
* A C++ `HashNode` owns an optional successor chain.  A chain beyond the
  head is a linear sequence of (key, value) links, so a node is modelled as
  its head pair plus the flattened list of its successors (`next`).
* The base store slot `i` physically always holds a node; emptiness is the
  sentinel test `isNull key`.  The heap (overflow) store is a length-`n`
  array of nodes with the same convention.
* `insert` can call `grow`, which re-inserts through `insert` again, so the
  C++ recursion is unbounded in principle; the model adds an explicit fuel
  bound on grow nesting and returns `none` when the fuel is exhausted.
  Every use in this file supplies ample fuel.  `insert` also reports how
  many times `grow` was invoked during that single call.
-/

/-- Hash of `IntKey<int>`: `static_cast<size_t>(value)`, the value modulo 2^64. -/
def intHash (v : Int) : Nat := (v % (2 ^ 64 : Int)).toNat

/-- Sentinel test of `IntKey`: `value == 0`. -/
def isNull (v : Int) : Bool := v == 0

/-- A `HashNode`: head key, head value, and the flattened chain of successor
(key, value) links (`next == nullptr` is the empty list). -/
structure HashNode where
  key : Int
  value : Int
  next : List (Int × Int)
deriving Repr, DecidableEq

/-- A default-constructed node: `key = {}` (the sentinel 0), `value = {}`,
`next = nullptr`. -/
def defaultNode : HashNode := ⟨0, 0, []⟩

/-- `HashNode::isOccupied`: `!key.isNull()`. -/
def isOccupied (s : HashNode) : Bool := !(isNull s.key)

/-- The full physical chain rooted at a slot: head pair followed by the
successor links. -/
def slotChain (s : HashNode) : List (Int × Int) := (s.key, s.value) :: s.next

/-- The `HashTable` state: fixed base array (its length is `BaseSize`),
heap (overflow) array, and `entryCount`. -/
structure HashTable where
  base : List HashNode
  heap : List HashNode
  entryCount : Nat
deriving Repr, DecidableEq

/-- A default-constructed table with base capacity `B`: all base nodes
default, empty heap, zero count. -/
def emptyTable (B : Nat) : HashTable :=
  { base := List.replicate B defaultNode, heap := [], entryCount := 0 }

/-- `BaseSize + heap.length`, the modulus of every index computation. -/
def HashTable.totalSize (t : HashTable) : Nat := t.base.length + t.heap.length

/-- The slot index of a key under the current total size. -/
def HashTable.slotIndex (t : HashTable) (k : Int) : Nat :=
  intHash k % t.totalSize

/-- The node stored at global slot index `i` (base when `i < BaseSize`,
else heap slot `i - BaseSize`). -/
def HashTable.slotAt (t : HashTable) (i : Nat) : HashNode :=
  if i < t.base.length then t.base.getD i defaultNode
  else t.heap.getD (i - t.base.length) defaultNode

/-- The physical chain that a lookup of `k` walks. -/
def HashTable.chainOf (t : HashTable) (k : Int) : List (Int × Int) :=
  slotChain (t.slotAt (t.slotIndex k))

/-- The chain walk of `get`: skip nodes whose key is the sentinel, return
the value of the first occupied node with an equal key. -/
def lookupChain (k : Int) : List (Int × Int) → Option Int
  | [] => none
  | (k1, v1) :: rest =>
    if !(isNull k1) && k1 == k then some v1 else lookupChain k rest

/-- `HashTable::get`: index under the current total size, walk the chain,
first occupied equal key wins; `none` models the null pointer. -/
def HashTable.get (t : HashTable) (k : Int) : Option Int :=
  lookupChain k (t.chainOf k)

/-- Remove the first link with key `k` from a successor chain
(`prev->next = std::move(node->next)`). -/
def removeFirst (k : Int) : List (Int × Int) → List (Int × Int)
  | [] => []
  | (k1, v1) :: rest =>
    if k1 == k then rest else (k1, v1) :: removeFirst k rest

/-- The slot-level effect of `HashTable::remove` once the walk found the slot:
head match with a successor promotes the successor and then `next.reset()`
discards everything after it; head match without a successor resets the node;
otherwise the first matching successor link is unlinked. -/
def removeNode (k : Int) (s : HashNode) : HashNode :=
  if s.key == k then
    match s.next with
    | [] => defaultNode
    | (k2, v2) :: _ => ⟨k2, v2, []⟩
  else
    ⟨s.key, s.value, removeFirst k s.next⟩

/-- `HashTable::remove`: return early when `entryCount == 0`, otherwise
decrement the count unconditionally, then locate the slot and remove. -/
def HashTable.remove (t : HashTable) (k : Int) : HashTable :=
  if t.entryCount == 0 then t
  else
    let t1 : HashTable := { t with entryCount := t.entryCount - 1 }
    let index := t1.slotIndex k
    if index < t1.base.length then
      { t1 with base := t1.base.set index (removeNode k (t1.base.getD index defaultNode)) }
    else
      let hi := index - t1.base.length
      { t1 with heap := t1.heap.set hi (removeNode k (t1.heap.getD hi defaultNode)) }

/-- The `++entryCount` performed at the start of `insert`. -/
def bumpCount (t : HashTable) : HashTable :=
  { t with entryCount := t.entryCount + 1 }

/-- Steps 2-3 of `insert` (placement only): recompute the index, then either
overwrite an unoccupied slot head with `{key, value, nullptr}` or append a
new node at the tail of the occupied slot's chain. -/
def placeEntry (t : HashTable) (k v : Int) : HashTable :=
  let index := t.slotIndex k
  if index < t.base.length then
    let s := t.base.getD index defaultNode
    if isOccupied s then
      { t with base := t.base.set index ⟨s.key, s.value, s.next ++ [(k, v)]⟩ }
    else
      { t with base := t.base.set index ⟨k, v, []⟩ }
  else
    let hi := index - t.base.length
    let s := t.heap.getD hi defaultNode
    if isOccupied s then
      { t with heap := t.heap.set hi ⟨s.key, s.value, s.next ++ [(k, v)]⟩ }
    else
      { t with heap := t.heap.set hi ⟨k, v, []⟩ }

/-- The new heap length chosen by `grow`:
`(heap.length == 0) ? 4 : heap.length * 2`. -/
def newHeapLen (t : HashTable) : Nat :=
  if t.heap.length == 0 then 4 else t.heap.length * 2

/-- The drain of one base chain in `grow`:
`while (node && node->isOccupied())` collects pairs, so the walk stops at the
first unoccupied node. -/
def drainChain (l : List (Int × Int)) : List (Int × Int) :=
  l.takeWhile (fun kv => !(isNull kv.1))

/-- The base-store drain of `grow`: walk every base chain in index order. -/
def drainBase (base : List HashNode) : List (Int × Int) :=
  (base.map (fun s => drainChain (slotChain s))).flatten

/-- The heap-store drain of `grow`: only the head of each occupied heap slot
is collected; successor links of heap chains are never visited. -/
def drainHeap (heap : List HashNode) : List (Int × Int) :=
  heap.foldr (fun s acc => if isOccupied s then (s.key, s.value) :: acc else acc) []

/-- All pairs `grow` collects into its temporary vector, in collection order. -/
def growCollect (t : HashTable) : List (Int × Int) :=
  drainBase t.base ++ drainHeap t.heap

/-- The table state after `grow`'s drain and reallocation, before any
reinsertion: the heap is replaced by a fresh default array of the new length
and `entryCount = 0`; the base array is left exactly as it was (the drain
moves trivially-copyable keys and values, which leaves them in place, and no
code clears the base slots). -/
def growPre (t : HashTable) : HashTable :=
  { base := t.base
    heap := List.replicate (newHeapLen t) defaultNode
    entryCount := 0 }

/-- Reinsert a list of collected pairs through a given insert function,
accumulating the number of grow calls the inner inserts performed. -/
def reinsertWith (ins : HashTable → Int → Int → Option (HashTable × Nat)) :
    List (Int × Int) → HashTable → Nat → Option (HashTable × Nat)
  | [], t, g => some (t, g)
  | (k, v) :: rest, t, g =>
    match ins t k v with
    | none => none
    | some (t1, g1) => reinsertWith ins rest t1 (g + g1)

/-- `HashTable::grow`, parameterised by the insert function used for
reinsertion (the C++ calls the full `insert`, load-factor check included). -/
def growWith (ins : HashTable → Int → Int → Option (HashTable × Nat))
    (t : HashTable) : Option (HashTable × Nat) :=
  reinsertWith ins (growCollect t) (growPre t) 0

/-- `HashTable::insert`, with explicit fuel bounding grow nesting.  The count
is incremented first; the load-factor check `entryCount > totalSize * 0.75`
is the exact integer comparison `4 * entryCount > 3 * totalSize`; when it
fires, `grow` runs (reinserting through `insert` at the next fuel level) and
then the pending entry is placed under the new total size.  The returned
`Nat` is the number of `grow` invocations performed during this call. -/
def HashTable.insert : Nat → HashTable → Int → Int → Option (HashTable × Nat)
  | 0 => fun t k v =>
    let t1 := bumpCount t
    if 4 * t1.entryCount > 3 * t1.totalSize then none
    else some (placeEntry t1 k v, 0)
  | fuel + 1 => fun t k v =>
    let t1 := bumpCount t
    if 4 * t1.entryCount > 3 * t1.totalSize then
      match growWith (HashTable.insert fuel) t1 with
      | none => none
      | some (t2, g) => some (placeEntry t2 k v, g + 1)
    else some (placeEntry t1 k v, 0)

/-- Run a sequence of inserts left to right. -/
def runInserts (fuel : Nat) (t : HashTable) : List (Int × Int) → Option HashTable
  | [] => some t
  | (k, v) :: rest =>
    match t.insert fuel k v with
    | none => none
    | some (t1, _) => runInserts fuel t1 rest

/-- The `HashTable` copy constructor: `base = other.base` performs a deep
per-node chain copy, `entryCount` is copied, but the guard
`if (heap.length > 0)` reads the destination's own default-initialised heap
(length 0), so the heap contents are never copied and the copy's heap is
empty. -/
def HashTable.copy (t : HashTable) : HashTable :=
  { base := t.base, heap := [], entryCount := t.entryCount }

/-- One step of `make_table`: index by `hash % BaseSize`, fail on an occupied
slot, otherwise place `{key, value, nullptr}`; `entryCount` is never
updated. -/
def make_tableGo : List (Int × Int) → HashTable → Option HashTable
  | [], t => some t
  | (k, v) :: rest, t =>
    let index := intHash k % t.base.length
    if isOccupied (t.base.getD index defaultNode) then none
    else make_tableGo rest { t with base := t.base.set index ⟨k, v, []⟩ }

/-- `HashTable::make_table`: the frozen construction path, starting from a
default table; `none` models the thrown `std::logic_error`. -/
def make_table (B : Nat) (entries : List (Int × Int)) : Option HashTable :=
  make_tableGo entries (emptyTable B)

/-- All live (occupied) entries physically stored anywhere in the table, in
slot order: the multiset content of the table. -/
def storedEntries (t : HashTable) : List (Int × Int) :=
  ((t.base ++ t.heap).map (fun s => (slotChain s).filter (fun kv => !(isNull kv.1)))).flatten


/-!
Embedding of the second variant (the `std::optional`-slot table with
`erase`), used where a claim cites it.  A slot is the list of its chain's
(key, value) pairs; the empty list models a disengaged optional (base) or a
null pointer (heap).  `std::hash<int>` is the identity on the value cast to
`size_t`, modelled by `intHash` as before.
-/

/-- The optional-slot `HashTable` variant: `base_array`, `heap_array`
(whose length is `heap_size`), and `num_entries`. -/
structure HashTable2 where
  base_array : List (List (Int × Int))
  heap_array : List (List (Int × Int))
  num_entries : Nat
deriving Repr, DecidableEq

/-- The chain rewrite performed by `erase` once it reached a slot: a head
match replaces the slot by the head's successor chain, a later match is
unlinked by `prev->next = std::move(curr->next)`; `none` when the key is
absent from the chain. -/
def eraseChain (k : Int) : List (Int × Int) → Option (List (Int × Int))
  | [] => none
  | (k1, v1) :: rest =>
    if k1 == k then some rest
    else (eraseChain k rest).map (fun r => (k1, v1) :: r)

/-- `HashTable::erase` of the optional-slot variant: index under
`base_size + heap_size`, search the one target chain, decrement
`num_entries` only on a confirmed removal, and return whether an entry was
removed. -/
def HashTable2.erase (t : HashTable2) (k : Int) : Bool × HashTable2 :=
  let total := t.base_array.length + t.heap_array.length
  let index := intHash k % total
  if index < t.base_array.length then
    match eraseChain k (t.base_array.getD index []) with
    | none => (false, t)
    | some c => (true, { t with base_array := t.base_array.set index c,
                                num_entries := t.num_entries - 1 })
  else
    let hi := index - t.base_array.length
    match eraseChain k (t.heap_array.getD hi []) with
    | none => (false, t)
    | some c => (true, { t with heap_array := t.heap_array.set hi c,
                                num_entries := t.num_entries - 1 })

/-!
Concrete table states used by the concrete (counterexample / failing-input)
theorems below.  Each is a table reached by running the embedded operations
from an empty table; the accompanying theorems assert that the runs succeed.
-/

/-- Insert run for the round-trip failing input: distinct non-sentinel keys,
no removes, base capacity 4; the key 13 chains behind 5 in the overflow
store and the growth triggered by inserting 9 drops it. -/
def run8 : Option HashTable :=
  runInserts 10 (emptyTable 4)
    [(1, 10), (2, 20), (3, 30), (5, 50), (13, 130), (6, 60), (7, 70), (9, 90)]

/-- The table reached by `run8`. -/
def t9 : HashTable := run8.getD (emptyTable 4)

/-- Three inserts into a base-capacity-4 table: the last state before the
load factor is exceeded. -/
def t3 : HashTable :=
  (runInserts 10 (emptyTable 4) [(1, 10), (2, 20), (3, 30)]).getD (emptyTable 4)

/-- Four inserts into a base-capacity-4 table: the fourth insert has grown
the table, and key 5 now lives in the overflow store. -/
def t5 : HashTable :=
  (runInserts 10 (emptyTable 4) [(1, 10), (2, 20), (3, 30), (5, 50)]).getD (emptyTable 4)

/-- Three keys that all hash to base slot 0 of a base-capacity-8 table,
forming a single chain of length three. -/
def t24 : HashTable :=
  (runInserts 10 (emptyTable 8) [(8, 80), (16, 160), (24, 240)]).getD (emptyTable 8)

/-- A one-entry table (key 1 in base slot 1 of capacity 4). -/
def t4 : HashTable :=
  (runInserts 10 (emptyTable 4) [(1, 10)]).getD (emptyTable 4)

/-- The same one-entry state in the optional-slot variant. -/
def t4b : HashTable2 :=
  { base_array := [[], [(1, 10)], [], []], heap_array := [], num_entries := 1 }

/-- A one-entry table used as the witness input for the duplicate-insert
claim. -/
def w9 : HashTable :=
  { base := [defaultNode, ⟨1, 10, []⟩, defaultNode, defaultNode], heap := [], entryCount := 1 }

/-!
Helper lemmas.
-/

theorem getD_set_self {α : Type} (l : List α) (i : Nat) (a d : α)
    (h : i < l.length) : (l.set i a).getD i d = a := by
  induction l generalizing i with
  | nil => simp at h
  | cons x xs ih =>
    cases i with
    | zero => rfl
    | succ n =>
      simp only [List.set_cons_succ, List.getD_cons_succ]
      exact ih n (by simpa using h)

theorem getD_set_ne {α : Type} (l : List α) {i j : Nat} (a d : α)
    (h : i ≠ j) : (l.set i a).getD j d = l.getD j d := by
  induction l generalizing i j with
  | nil => rfl
  | cons x xs ih =>
    cases i with
    | zero =>
      cases j with
      | zero => exact absurd rfl h
      | succ m => rfl
    | succ n =>
      cases j with
      | zero => rfl
      | succ m =>
        simp only [List.set_cons_succ, List.getD_cons_succ]
        exact ih (fun e => h (by rw [e]))

theorem getD_replicate_self {α : Type} (n : Nat) (a : α) (j : Nat) :
    (List.replicate n a).getD j a = a := by
  induction n generalizing j with
  | zero => rfl
  | succ m ih =>
    cases j with
    | zero => rfl
    | succ i =>
      simp only [List.replicate_succ, List.getD_cons_succ]
      exact ih i

theorem lookupChain_append_some {k : Int} {l : List (Int × Int)} {v : Int}
    (h : lookupChain k l = some v) (l2 : List (Int × Int)) :
    lookupChain k (l ++ l2) = some v := by
  induction l with
  | nil => simp [lookupChain] at h
  | cons a rest ih =>
    obtain ⟨k1, v1⟩ := a
    rw [List.cons_append]
    rw [lookupChain] at h ⊢
    split at h
    · rw [if_pos (by assumption)]; exact h
    · rw [if_neg (by assumption)]; exact ih h

theorem lookupChain_null {k : Int} (hk : isNull k = true) :
    ∀ l, lookupChain k l = none
  | [] => rfl
  | (k1, v1) :: rest => by
    have hc : (!(isNull k1) && k1 == k) = false := by
      by_cases h : k1 = k
      · subst h; simp [hk]
      · simp [h]
    rw [lookupChain, hc]
    simp only [Bool.false_eq_true, if_false]
    exact lookupChain_null hk rest

theorem placeEntry_base_length (t : HashTable) (k w : Int) :
    (placeEntry t k w).base.length = t.base.length := by
  simp only [placeEntry]
  split
  · split <;> simp
  · split <;> simp

theorem placeEntry_heap_length (t : HashTable) (k w : Int) :
    (placeEntry t k w).heap.length = t.heap.length := by
  simp only [placeEntry]
  split
  · split <;> simp
  · split <;> simp

theorem placeEntry_entryCount (t : HashTable) (k w : Int) :
    (placeEntry t k w).entryCount = t.entryCount := by
  simp only [placeEntry]
  split
  · split <;> rfl
  · split <;> rfl

theorem placeEntry_slotIndex (t : HashTable) (k w q : Int) :
    (placeEntry t k w).slotIndex q = t.slotIndex q := by
  unfold HashTable.slotIndex HashTable.totalSize
  rw [placeEntry_base_length, placeEntry_heap_length]

theorem placeEntry_slotAt_occ (t : HashTable) (k w : Int) (hB : 0 < t.base.length)
    (ho : isOccupied (t.slotAt (t.slotIndex k)) = true) :
    (placeEntry t k w).slotAt (t.slotIndex k) =
      ⟨(t.slotAt (t.slotIndex k)).key, (t.slotAt (t.slotIndex k)).value,
        (t.slotAt (t.slotIndex k)).next ++ [(k, w)]⟩ := by
  have htot : 0 < t.totalSize := by unfold HashTable.totalSize; omega
  have hi : t.slotIndex k < t.totalSize := Nat.mod_lt _ htot
  by_cases hib : t.slotIndex k < t.base.length
  · have hs : t.slotAt (t.slotIndex k) = t.base.getD (t.slotIndex k) defaultNode := by
      unfold HashTable.slotAt; rw [if_pos hib]
    rw [hs] at ho ⊢
    have hp : placeEntry t k w =
        { t with base := (t.base.set (t.slotIndex k)
            ⟨(t.base.getD (t.slotIndex k) defaultNode).key,
              (t.base.getD (t.slotIndex k) defaultNode).value,
              (t.base.getD (t.slotIndex k) defaultNode).next ++ [(k, w)]⟩) } := by
      simp only [placeEntry]
      rw [if_pos hib, if_pos ho]
    rw [hp]
    unfold HashTable.slotAt
    simp only [List.length_set]
    rw [if_pos hib, getD_set_self _ _ _ _ hib]
  · have hhi : t.slotIndex k - t.base.length < t.heap.length := by
      unfold HashTable.totalSize at hi; omega
    have hs : t.slotAt (t.slotIndex k) =
        t.heap.getD (t.slotIndex k - t.base.length) defaultNode := by
      unfold HashTable.slotAt; rw [if_neg hib]
    rw [hs] at ho ⊢
    have hp : placeEntry t k w =
        { t with heap := (t.heap.set (t.slotIndex k - t.base.length)
            ⟨(t.heap.getD (t.slotIndex k - t.base.length) defaultNode).key,
              (t.heap.getD (t.slotIndex k - t.base.length) defaultNode).value,
              (t.heap.getD (t.slotIndex k - t.base.length) defaultNode).next ++ [(k, w)]⟩) } := by
      simp only [placeEntry]
      rw [if_neg hib, if_pos ho]
    rw [hp]
    unfold HashTable.slotAt
    simp only [List.length_set]
    rw [if_neg hib, getD_set_self _ _ _ _ hhi]

theorem placeEntry_slotAt_unocc (t : HashTable) (k w : Int) (hB : 0 < t.base.length)
    (ho : isOccupied (t.slotAt (t.slotIndex k)) = false) :
    (placeEntry t k w).slotAt (t.slotIndex k) = ⟨k, w, []⟩ := by
  have htot : 0 < t.totalSize := by unfold HashTable.totalSize; omega
  have hi : t.slotIndex k < t.totalSize := Nat.mod_lt _ htot
  have ho' := ho
  by_cases hib : t.slotIndex k < t.base.length
  · have hs : t.slotAt (t.slotIndex k) = t.base.getD (t.slotIndex k) defaultNode := by
      unfold HashTable.slotAt; rw [if_pos hib]
    rw [hs] at ho'
    have hp : placeEntry t k w =
        { t with base := (t.base.set (t.slotIndex k) ⟨k, w, []⟩) } := by
      simp only [placeEntry]
      rw [if_pos hib, if_neg (by rw [ho']; exact Bool.false_ne_true)]
    rw [hp]
    unfold HashTable.slotAt
    simp only [List.length_set]
    rw [if_pos hib, getD_set_self _ _ _ _ hib]
  · have hhi : t.slotIndex k - t.base.length < t.heap.length := by
      unfold HashTable.totalSize at hi; omega
    have hs : t.slotAt (t.slotIndex k) =
        t.heap.getD (t.slotIndex k - t.base.length) defaultNode := by
      unfold HashTable.slotAt; rw [if_neg hib]
    rw [hs] at ho'
    have hp : placeEntry t k w =
        { t with heap := (t.heap.set (t.slotIndex k - t.base.length) ⟨k, w, []⟩) } := by
      simp only [placeEntry]
      rw [if_neg hib, if_neg (by rw [ho']; exact Bool.false_ne_true)]
    rw [hp]
    unfold HashTable.slotAt
    simp only [List.length_set]
    rw [if_neg hib, getD_set_self _ _ _ _ hhi]

theorem bumpCount_fields (t : HashTable) :
    (bumpCount t).base = t.base ∧ (bumpCount t).heap = t.heap ∧
    (bumpCount t).entryCount = t.entryCount + 1 := ⟨rfl, rfl, rfl⟩

theorem bumpCount_slotIndex (t : HashTable) (k : Int) :
    (bumpCount t).slotIndex k = t.slotIndex k := rfl

theorem bumpCount_slotAt (t : HashTable) (i : Nat) :
    (bumpCount t).slotAt i = t.slotAt i := rfl

theorem insert_no_grow (fuel : Nat) (t : HashTable) (k w : Int)
    (hload : 4 * (t.entryCount + 1) ≤ 3 * t.totalSize) :
    t.insert fuel k w = some (placeEntry (bumpCount t) k w, 0) := by
  have hc : ¬ (4 * (bumpCount t).entryCount > 3 * (bumpCount t).totalSize) := by
    have h1 : (bumpCount t).entryCount = t.entryCount + 1 := rfl
    have h2 : (bumpCount t).totalSize = t.totalSize := rfl
    rw [h1, h2]
    omega
  cases fuel with
  | zero =>
    rw [HashTable.insert]
    simp only []
    rw [if_neg hc]
  | succ n =>
    rw [HashTable.insert]
    simp only []
    rw [if_neg hc]

theorem make_tableGo_some_fields :
    ∀ (l : List (Int × Int)) (t t1 : HashTable), make_tableGo l t = some t1 →
      t1.base.length = t.base.length ∧ t1.heap = t.heap ∧ t1.entryCount = t.entryCount
  | [], t, t1, h => by
    rw [make_tableGo] at h
    cases h
    exact ⟨rfl, rfl, rfl⟩
  | (k, v) :: rest, t, t1, h => by
    rw [make_tableGo] at h
    split at h
    · exact absurd h (by simp)
    · obtain ⟨h1, h2, h3⟩ := make_tableGo_some_fields rest _ t1 h
      refine ⟨?_, h2, h3⟩
      rw [h1]
      simp

theorem make_tableGo_preserve_occ :
    ∀ (l : List (Int × Int)) (t t1 : HashTable), make_tableGo l t = some t1 →
      ∀ j, isOccupied (t.base.getD j defaultNode) = true →
        t1.base.getD j defaultNode = t.base.getD j defaultNode
  | [], t, t1, h => by
    rw [make_tableGo] at h
    cases h
    exact fun j _ => rfl
  | (k, v) :: rest, t, t1, h => by
    rw [make_tableGo] at h
    split at h
    · exact absurd h (by simp)
    · intro j hj
      have hji : j ≠ intHash k % t.base.length := by
        intro e
        rw [e] at hj
        simp_all
      have := make_tableGo_preserve_occ rest _ t1 h j
      rw [getD_set_ne _ _ _ (fun e => hji e.symm)] at this
      exact this hj

theorem make_tableGo_mem_slot :
    ∀ (l : List (Int × Int)) (t t1 : HashTable), 0 < t.base.length →
      (∀ kv ∈ l, isNull kv.1 = false) → make_tableGo l t = some t1 →
      ∀ kv ∈ l, t1.base.getD (intHash kv.1 % t.base.length) defaultNode = ⟨kv.1, kv.2, []⟩
  | [], t, t1, _, _, h => by
    intro kv hkv
    exact absurd hkv (by simp)
  | (k, v) :: rest, t, t1, hB, hnn, h => by
    rw [make_tableGo] at h
    split at h
    · exact absurd h (by simp)
    · intro kv hkv
      have hBset : (0 : Nat) < (t.base.set (intHash k % t.base.length) ⟨k, v, []⟩).length := by
        simpa using hB
      have hiB : intHash k % t.base.length < t.base.length := Nat.mod_lt _ hB
      rcases List.mem_cons.mp hkv with he | hm
      · subst he
        show t1.base.getD (intHash k % t.base.length) defaultNode = ⟨k, v, []⟩
        have hocc : isOccupied ((t.base.set (intHash k % t.base.length)
            ⟨k, v, []⟩).getD (intHash k % t.base.length) defaultNode) = true := by
          rw [getD_set_self _ _ _ _ hiB]
          have := hnn (k, v) (by simp)
          simp only [isOccupied] at *
          simp [this]
        have hpres := make_tableGo_preserve_occ rest _ t1 h
          (intHash k % t.base.length) hocc
        rw [hpres, getD_set_self _ _ _ _ hiB]
      · have := make_tableGo_mem_slot rest _ t1 hBset
          (fun x hx => hnn x (List.mem_cons_of_mem _ hx)) h kv hm
        rw [List.length_set] at this
        exact this

theorem make_tableGo_none_iff :
    ∀ (l : List (Int × Int)) (t : HashTable), 0 < t.base.length →
      (∀ kv ∈ l, isNull kv.1 = false) →
      (make_tableGo l t = none ↔
        ¬ ((l.map (fun kv => intHash kv.1 % t.base.length)).Nodup ∧
           ∀ j ∈ l.map (fun kv => intHash kv.1 % t.base.length),
             isOccupied (t.base.getD j defaultNode) = false))
  | [], t, _, _ => by
    rw [make_tableGo]
    simp
  | (k, v) :: rest, t, hB, hnn => by
    rw [make_tableGo]
    have hiB : intHash k % t.base.length < t.base.length := Nat.mod_lt _ hB
    by_cases ho : isOccupied (t.base.getD (intHash k % t.base.length) defaultNode) = true
    · rw [if_pos ho]
      constructor
      · intro _ hc
        have := hc.2 (intHash k % t.base.length) (by simp)
        rw [ho] at this
        exact absurd this (by simp)
      · intro _; rfl
    · rw [if_neg ho]
      have ho' : isOccupied (t.base.getD (intHash k % t.base.length) defaultNode) = false := by
        simpa using ho
      have hnnk : isNull k = false := hnn (k, v) (by simp)
      have hBset : (0 : Nat) < (t.base.set (intHash k % t.base.length) ⟨k, v, []⟩).length := by
        simpa using hB
      have ih := make_tableGo_none_iff rest
        { t with base := (t.base.set (intHash k % t.base.length) ⟨k, v, []⟩) } hBset
        (fun x hx => hnn x (List.mem_cons_of_mem _ hx))
      rw [ih]
      simp only [List.length_set]
      have hrw : (∀ j ∈ rest.map (fun kv => intHash kv.1 % t.base.length),
            isOccupied ((t.base.set (intHash k % t.base.length) ⟨k, v, []⟩).getD j
              defaultNode) = false) ↔
          ((intHash k % t.base.length) ∉
              rest.map (fun kv => intHash kv.1 % t.base.length) ∧
            ∀ j ∈ rest.map (fun kv => intHash kv.1 % t.base.length),
              isOccupied (t.base.getD j defaultNode) = false) := by
        constructor
        · intro hall
          have hni : (intHash k % t.base.length) ∉
              rest.map (fun kv => intHash kv.1 % t.base.length) := by
            intro hin
            have := hall _ hin
            rw [getD_set_self _ _ _ _ hiB] at this
            simp [isOccupied, hnnk] at this
          refine ⟨hni, fun j hj => ?_⟩
          have hji : intHash k % t.base.length ≠ j := by
            intro e; rw [e] at hni; exact hni hj
          have := hall j hj
          rw [getD_set_ne _ _ _ hji] at this
          exact this
        · intro ⟨hni, hall⟩ j hj
          have hji : intHash k % t.base.length ≠ j := by
            intro e; rw [e] at hni; exact hni hj
          rw [getD_set_ne _ _ _ hji]
          exact hall j hj
      rw [hrw]
      simp only [List.map_cons, List.nodup_cons, List.mem_cons, forall_eq_or_imp, ho']
      tauto

/-!
Claim theorems.
-/

/-- C1: the round-trip claim fails on the code.  The failing input inserts
the distinct non-sentinel keys 1, 2, 3, 5, 13, 6, 7, 9 (with values ten
times the key) into a base-capacity-4 table with no removes; the run
succeeds, yet `get(13)` reports the key absent (its value 130 was dropped
because the growth triggered by inserting 9 collects only the head of each
overflow slot, and 13 was chained behind 5), while `get(5)` still returns
50. -/
theorem c1_roundtrip_fails :
    run8 = some t9 ∧ t9.get 13 = none ∧ t9.get 5 = some 50 := by decide

/-- C2: growth is neither loss-free nor duplicate-free.  Growing the
bumped three-entry table `t3` (the exact growth performed inside the
insert of key 5) returns a table that stores six entries with (1, 10)
present twice — the drain moves trivially-copyable keys and values out of
the base store without clearing it, so reinsertion appends duplicates to
the stale base chains — and `entryCount` afterwards is 3 although it was 4
when growth started. -/
theorem c2_grow_duplicates :
    runInserts 10 (emptyTable 4) [(1, 10), (2, 20), (3, 30)] = some t3 ∧
    storedEntries t3 = [(1, 10), (2, 20), (3, 30)] ∧
    (bumpCount t3).entryCount = 4 ∧
    (growWith (HashTable.insert 10) (bumpCount t3)).map
      (fun r => (storedEntries r.1).length) = some 6 ∧
    (growWith (HashTable.insert 10) (bumpCount t3)).map
      (fun r => (storedEntries r.1).count (1, 10)) = some 2 ∧
    (growWith (HashTable.insert 10) (bumpCount t3)).map
      (fun r => r.1.entryCount) = some 3 := by decide

/-- C3: removing a present key at the head of a chain with two successors
destroys the second successor.  In `t24` the keys 8, 16, 24 share base slot
0; after `remove(8)`, `get(16)` still succeeds (the promoted successor) but
`get(24)` reports absent although 24 was present before and differs from
the removed key — `node->next.reset()` after the promotion deletes the rest
of the chain. -/
theorem c3_remove_head_loses_tail :
    runInserts 10 (emptyTable 8) [(8, 80), (16, 160), (24, 240)] = some t24 ∧
    t24.get 24 = some 240 ∧
    (t24.remove 8).get 8 = none ∧
    (t24.remove 8).get 16 = some 160 ∧
    (t24.remove 8).get 24 = none := by decide

/-- C4: removing an absent key is not clean in the primary variant.  In the
one-entry table `t4` the key 2 is absent, yet `remove(2)` decrements
`entryCount` from 1 to 0 (the stored entries are unchanged); the
optional-slot variant's `erase` behaves as the claim states, returning
`false` and leaving the state untouched. -/
theorem c4_absent_remove_decrements :
    runInserts 10 (emptyTable 4) [(1, 10)] = some t4 ∧
    t4.entryCount = 1 ∧ t4.get 2 = none ∧
    (t4.remove 2).entryCount = 0 ∧
    (t4.remove 2).base = t4.base ∧ (t4.remove 2).heap = t4.heap ∧
    t4b.erase 2 = (false, t4b) := by decide

/-- C5 counterexample: two keys of the input list hash to the same base
index (0 and 4 both map to base slot 0 of a capacity-4 table), yet
`make_table` succeeds instead of failing fatally: the first key is the
sentinel, so the slot it fills still reads as unoccupied and the second key
silently overwrites it. -/
theorem c5_counterexample :
    intHash 0 % 4 = intHash 4 % 4 ∧
    (make_table 4 [(0, 10), (4, 20)]).isSome = true := by decide

/-- C6: the copy constructor is not a full deep copy.  In `t5` (after one
growth) key 5 lives in the overflow store of length 4 and `get(5)` returns
50; the copy has an empty overflow store — the constructor's guard reads
its own default-initialised `heap.length` instead of the source's — and
`get(5)` on the copy reports absent. -/
theorem c6_copy_drops_heap :
    runInserts 10 (emptyTable 4) [(1, 10), (2, 20), (3, 30), (5, 50)] = some t5 ∧
    t5.get 5 = some 50 ∧ t5.heap.length = 4 ∧
    t5.copy.heap.length = 0 ∧ t5.copy.get 5 = none := by decide

set_option maxHeartbeats 4000000 in
/-- C7: growth is re-triggered while a rehash is in progress.  Inserting
key 10 into the table `t9` performs two `grow` invocations within that
single insert call: the reinsertion loop of the first growth runs the full
`insert` including the load-factor check, and the stale duplicates the
earlier growths left in the base store push the count over the threshold
mid-rehash. -/
theorem c7_nested_grow :
    run8 = some t9 ∧
    (t9.insert 10 10 100).map Prod.snd = some 2 := by decide

/-- C8: growth leaves the base store's capacity unchanged but does not
reset its slots.  In the state reached by `grow`'s drain and reallocation
phases on the bumped `t3` (exactly the state from which reinsertion
starts), the base still has length 4, the fresh overflow store has length
4, and base slot 1 is still occupied by its old node — the slots were
never reset to empty. -/
theorem c8_base_not_reset :
    runInserts 10 (emptyTable 4) [(1, 10), (2, 20), (3, 30)] = some t3 ∧
    (growPre (bumpCount t3)).base.length = t3.base.length ∧
    (growPre (bumpCount t3)).base = t3.base ∧
    isOccupied ((growPre (bumpCount t3)).base.getD 1 defaultNode) = true ∧
    (growPre (bumpCount t3)).heap.length = 4 ∧
    (growPre (bumpCount t3)).entryCount = 0 := by decide

/-- C5 (amended): for input lists whose keys are all non-sentinel, the
frozen construction path `make_table` fails fatally if and only if two input
keys hash to the same base index; on success the overflow store is untouched
(it stays empty), the base capacity is the requested one, and every input
key is retrievable with its original value. -/
theorem c5_frozen_construction (B : Nat) (entries : List (Int × Int)) (hB : 0 < B)
    (hnn : ∀ kv ∈ entries, isNull kv.1 = false) :
    ((make_table B entries = none) ↔
      ¬ (entries.map (fun kv => intHash kv.1 % B)).Nodup) ∧
    ∀ t1, make_table B entries = some t1 →
      t1.heap = [] ∧ t1.base.length = B ∧
      ∀ kv ∈ entries, t1.get kv.1 = some kv.2 := by
  have hper : (emptyTable B).base.length = B := by
    unfold emptyTable; simp
  have hBe : 0 < (emptyTable B).base.length := by rw [hper]; exact hB
  constructor
  · unfold make_table
    have h := make_tableGo_none_iff entries (emptyTable B) hBe hnn
    simp only [hper] at h
    rw [h]
    have hall : ∀ j ∈ entries.map (fun kv => intHash kv.1 % B),
        isOccupied ((emptyTable B).base.getD j defaultNode) = false := by
      intro j _
      show isOccupied ((List.replicate B defaultNode).getD j defaultNode) = false
      rw [getD_replicate_self]
      rfl
    rw [and_iff_left hall]
  · intro t1 hsome
    unfold make_table at hsome
    obtain ⟨hlen, hheap, _⟩ := make_tableGo_some_fields entries (emptyTable B) t1 hsome
    have hheap1 : t1.heap = [] := by rw [hheap]; rfl
    have hlen1 : t1.base.length = B := by rw [hlen, hper]
    refine ⟨hheap1, hlen1, ?_⟩
    intro kv hkv
    have hslot := make_tableGo_mem_slot entries (emptyTable B) t1 hBe hnn hsome kv hkv
    rw [hper] at hslot
    have htot : t1.totalSize = B := by
      unfold HashTable.totalSize
      rw [hlen1, hheap1]
      simp
    have hidx : t1.slotIndex kv.1 = intHash kv.1 % B := by
      unfold HashTable.slotIndex
      rw [htot]
    have hiB : intHash kv.1 % B < B := Nat.mod_lt _ hB
    have hsa : t1.slotAt (t1.slotIndex kv.1) = ⟨kv.1, kv.2, []⟩ := by
      unfold HashTable.slotAt
      rw [hidx, hlen1, if_pos hiB]
      exact hslot
    show lookupChain kv.1 (slotChain (t1.slotAt (t1.slotIndex kv.1))) = some kv.2
    rw [hsa]
    have hn := hnn kv hkv
    show lookupChain kv.1 [(kv.1, kv.2)] = some kv.2
    rw [lookupChain, hn]
    simp

/-- C5 witness: scenario B of the specification, keys 1, 2, 3 at base
capacity 5 — all non-sentinel, pairwise distinct base indices — so the
amended theorem applies: construction succeeds and every key is retrievable
with its value. -/
theorem c5_frozen_construction_witness :
    ((0 : Nat) < 5 ∧
      ∀ kv ∈ [((1 : Int), (100 : Int)), (2, 200), (3, 300)], isNull kv.1 = false) ∧
    (((make_table 5 [(1, 100), (2, 200), (3, 300)] = none) ↔
        ¬ (([((1 : Int), (100 : Int)), (2, 200), (3, 300)]).map
            (fun kv => intHash kv.1 % 5)).Nodup) ∧
      ∀ t1, make_table 5 [(1, 100), (2, 200), (3, 300)] = some t1 →
        t1.heap = [] ∧ t1.base.length = 5 ∧
        ∀ kv ∈ [((1 : Int), (100 : Int)), (2, 200), (3, 300)], t1.get kv.1 = some kv.2) :=
  ⟨⟨by decide, by decide⟩,
    c5_frozen_construction 5 [(1, 100), (2, 200), (3, 300)] (by decide) (by decide)⟩

/-- C9: inserting a key that is already present, when the insert does not
trigger growth (the load-factor check fails) and the key's slot is
well-formed (an unoccupied head has no successors, as in every reachable
state), chains a second node with the new value at the tail of the existing
chain without overwriting the first, and `get` afterwards still returns the
originally stored value: the duplicate is shadowed. -/
theorem c9_duplicate_insert_shadowed (t : HashTable) (k v w : Int) (fuel : Nat)
    (hB : 0 < t.base.length)
    (hwf : isOccupied (t.slotAt (t.slotIndex k)) = true ∨
      (t.slotAt (t.slotIndex k)).next = [])
    (hget : t.get k = some v)
    (hload : 4 * (t.entryCount + 1) ≤ 3 * t.totalSize) :
    t.insert fuel k w = some (placeEntry (bumpCount t) k w, 0) ∧
    (placeEntry (bumpCount t) k w).chainOf k = t.chainOf k ++ [(k, w)] ∧
    (placeEntry (bumpCount t) k w).get k = some v := by
  have ho : isOccupied (t.slotAt (t.slotIndex k)) = true := by
    by_cases hb : isOccupied (t.slotAt (t.slotIndex k)) = true
    · exact hb
    · have hbf : isOccupied (t.slotAt (t.slotIndex k)) = false := by simpa using hb
      exfalso
      rcases hwf with h | h
      · rw [hbf] at h; exact Bool.false_ne_true h
      · have hnul : isNull (t.slotAt (t.slotIndex k)).key = true := by
          unfold isOccupied at hbf; simpa using hbf
        unfold HashTable.get HashTable.chainOf slotChain at hget
        rw [h] at hget
        simp [lookupChain, hnul] at hget
  have ho2 : isOccupied ((bumpCount t).slotAt ((bumpCount t).slotIndex k)) = true := ho
  have hB2 : 0 < (bumpCount t).base.length := hB
  have hchain : (placeEntry (bumpCount t) k w).chainOf k = t.chainOf k ++ [(k, w)] := by
    unfold HashTable.chainOf
    have hidx : (placeEntry (bumpCount t) k w).slotIndex k = (bumpCount t).slotIndex k :=
      placeEntry_slotIndex (bumpCount t) k w k
    have hsa := placeEntry_slotAt_occ (bumpCount t) k w hB2 ho2
    have hb1 : (bumpCount t).slotIndex k = t.slotIndex k := rfl
    have hb2 : (bumpCount t).slotAt (t.slotIndex k) = t.slotAt (t.slotIndex k) := rfl
    rw [hb1] at hidx hsa
    rw [hb2] at hsa
    rw [hidx, hsa]
    simp [slotChain]
  refine ⟨insert_no_grow fuel t k w hload, hchain, ?_⟩
  have hget2 : lookupChain k (t.chainOf k) = some v := hget
  show lookupChain k ((placeEntry (bumpCount t) k w).chainOf k) = some v
  rw [hchain]
  exact lookupChain_append_some hget2 _

/-- C9 witness: the one-entry table `w9` holds key 1 with value 10; a second
insert of key 1 with value 99 chains the duplicate behind the original and
`get(1)` still returns 10. -/
theorem c9_duplicate_insert_shadowed_witness :
    ((0 : Nat) < w9.base.length ∧
      (isOccupied (w9.slotAt (w9.slotIndex 1)) = true ∨
        (w9.slotAt (w9.slotIndex 1)).next = []) ∧
      w9.get 1 = some 10 ∧
      4 * (w9.entryCount + 1) ≤ 3 * w9.totalSize) ∧
    (w9.insert 1 1 99 = some (placeEntry (bumpCount w9) 1 99, 0) ∧
      (placeEntry (bumpCount w9) 1 99).chainOf 1 = w9.chainOf 1 ++ [(1, 99)] ∧
      (placeEntry (bumpCount w9) 1 99).get 1 = some 10) :=
  ⟨⟨by decide, by decide, by decide, by decide⟩,
    c9_duplicate_insert_shadowed w9 1 10 99 1 (by decide) (by decide) (by decide) (by decide)⟩

/-- C10: inserting a key satisfying `is_null` (the sentinel 0 of `IntKey`)
when growth is not triggered still increments `entryCount` and physically
stores a node holding the pair, yet `get` on the sentinel reports absent on
every table state — before and after the insert — because lookup skips
every node whose key is the sentinel. -/
theorem c10_sentinel_insert (t : HashTable) (k w : Int) (fuel : Nat)
    (hB : 0 < t.base.length)
    (hk : isNull k = true)
    (hload : 4 * (t.entryCount + 1) ≤ 3 * t.totalSize) :
    t.get k = none ∧
    t.insert fuel k w = some (placeEntry (bumpCount t) k w, 0) ∧
    (placeEntry (bumpCount t) k w).entryCount = t.entryCount + 1 ∧
    (k, w) ∈ (placeEntry (bumpCount t) k w).chainOf k ∧
    (placeEntry (bumpCount t) k w).get k = none := by
  have hB2 : 0 < (bumpCount t).base.length := hB
  refine ⟨lookupChain_null hk _, insert_no_grow fuel t k w hload, ?_, ?_, ?_⟩
  · rw [placeEntry_entryCount]; rfl
  · unfold HashTable.chainOf
    have hidx : (placeEntry (bumpCount t) k w).slotIndex k = (bumpCount t).slotIndex k :=
      placeEntry_slotIndex (bumpCount t) k w k
    rw [hidx]
    by_cases ho : isOccupied ((bumpCount t).slotAt ((bumpCount t).slotIndex k)) = true
    · rw [placeEntry_slotAt_occ (bumpCount t) k w hB2 ho]
      simp [slotChain]
    · have hof : isOccupied ((bumpCount t).slotAt ((bumpCount t).slotIndex k)) = false := by
        simpa using ho
      rw [placeEntry_slotAt_unocc (bumpCount t) k w hB2 hof]
      simp [slotChain]
  · exact lookupChain_null hk _

/-- C10 witness: inserting the sentinel key 0 with value 7 into the empty
capacity-4 table stores the pair in slot 0 and raises the count to 1, yet
`get(0)` reports absent both before and after. -/
theorem c10_sentinel_insert_witness :
    ((0 : Nat) < (emptyTable 4).base.length ∧ isNull 0 = true ∧
      4 * ((emptyTable 4).entryCount + 1) ≤ 3 * (emptyTable 4).totalSize) ∧
    ((emptyTable 4).get 0 = none ∧
      (emptyTable 4).insert 1 0 7 = some (placeEntry (bumpCount (emptyTable 4)) 0 7, 0) ∧
      (placeEntry (bumpCount (emptyTable 4)) 0 7).entryCount = (emptyTable 4).entryCount + 1 ∧
      (0, 7) ∈ (placeEntry (bumpCount (emptyTable 4)) 0 7).chainOf 0 ∧
      (placeEntry (bumpCount (emptyTable 4)) 0 7).get 0 = none) :=
  ⟨⟨by decide, by decide, by decide⟩,
    c10_sentinel_insert (emptyTable 4) 0 7 1 (by decide) (by decide) (by decide)⟩
